import Mathlib

/-!
Verification development for the Pinterval server core
(aggregation / normalization / image-proxy layer).

The definitions below are a shallow embedding of the JavaScript server
source. JavaScript values that matter to the embedded code paths are
modelled as follows: an optional string field is `Option String` and is
truthy when it is present and nonempty; an optional numeric field is
`Option Int` and is truthy when present and nonzero; a missing or
non-object value is `none`. Upstream HTTP behaviour is modelled as a
function from the request index (0, 1, 2, …) to the upstream's response,
so every possible sequence of upstream answers is covered.
-/

namespace Pinterval

/-- Truthiness of an optional JS string: absent, null and the empty string
are falsy, every other string is truthy. -/
def strTruthy : Option String → Bool
  | none => false
  | some s => decide (s ≠ "")

/-- Truthiness of an optional JS number: absent, null and 0 are falsy. -/
def numTruthy : Option Int → Bool
  | none => false
  | some n => decide (n ≠ 0)

/-- JS "a || b" on optional strings: a when truthy, otherwise b. -/
def jsOrStr (a b : Option String) : Option String :=
  if strTruthy a then a else b

/-- One entry of an upstream image-variant map: a url plus optional numeric
width and height, all fields optional as the upstream guarantees nothing. -/
structure Variant where
  url : Option String
  width : Option Int
  height : Option Int
  deriving DecidableEq, Repr

/-- An upstream variant map, as the entry list Object.entries yields:
key/value pairs in insertion order; a value may be null. -/
abbrev VariantMap := List (String × Option Variant)

/-- Value of a nonempty digit list read as a decimal number, as parseInt
reads the match of the digit regex. -/
def digitsVal (cs : List Char) : Nat :=
  cs.foldl (fun a c => a * 10 + (c.toNat - 48)) 0

/-- First maximal run of digits in a string, per the regex used on variant
keys: none when the string has no digit. -/
def firstDigitRun (s : String) : Option Nat :=
  match s.data.dropWhile (fun c => !c.isDigit) with
  | [] => none
  | c :: rest => some (digitsVal ((c :: rest).takeWhile Char.isDigit))

/-- Score assigned to one url-bearing variant inside pickBestImageVariant:
width × height when both are truthy numbers, else the first digit run of
the key, else the 999999 sentinel. -/
def variantScore (key : String) (v : Variant) : Int :=
  if numTruthy v.width && numTruthy v.height then
    v.width.getD 0 * v.height.getD 0
  else
    match firstDigitRun key with
    | some n => (n : Int)
    | none => 999999

/-- Entry loop of pickBestImageVariant: keeps the best url and best score
seen so far, replacing them only on a strictly greater score; entries with
a falsy value or falsy url are skipped. -/
def pickBestAux : List (String × Option Variant) → Option String → Int → Option String
  | [], bestUrl, _ => bestUrl
  | (key, val) :: rest, bestUrl, bestScore =>
    match val with
    | none => pickBestAux rest bestUrl bestScore
    | some v =>
      if strTruthy v.url then
        if variantScore key v > bestScore then
          pickBestAux rest v.url (variantScore key v)
        else
          pickBestAux rest bestUrl bestScore
      else
        pickBestAux rest bestUrl bestScore

/-- Image-Variant Selector (pickBestImageVariant): none models a falsy or
non-object argument; otherwise scan the entries with best score starting
at -1. -/
def pickBestImageVariant : Option VariantMap → Option String
  | none => none
  | some entries => pickBestAux entries none (-1)

/-- A raw upstream pin, with every image-bearing and metadata field
optional (the upstream guarantees no shape). media_images stands for
pin.media?.images collapsed to none when absent or not an object. -/
structure RawPin where
  media_images : Option VariantMap
  images : Option VariantMap
  image_url : Option String
  thumbnail_url : Option String
  id : Option String
  title : Option String
  description : Option String
  alt_text : Option String
  link : Option String
  deriving DecidableEq, Repr

/-- Image resolution for one raw pin (pickImageUrlFromPin): media.images
via the Selector, then the legacy images map via the Selector, then
image_url, then thumbnail_url, else null. -/
def pickImageUrlFromPin (pin : RawPin) : Option String :=
  match pickBestImageVariant pin.media_images with
  | some best => some best
  | none =>
    match pickBestImageVariant pin.images with
    | some best => some best
    | none =>
      if strTruthy pin.image_url then pin.image_url
      else if strTruthy pin.thumbnail_url then pin.thumbnail_url
      else none

/-- The id of a canonical record: a stringified upstream value, or the
value of the Math.random() fallback, kept symbolic since its content is
unknown at this level. -/
inductive IdVal where
  | str (s : String)
  | randomId
  deriving DecidableEq, Repr

/-- Canonical pin record produced by the Normalizer. -/
structure PinRecord where
  id : IdVal
  title : String
  link : Option String
  image : Option String
  deriving DecidableEq, Repr

/-- Normalization of one raw pin: id from "p.id || image || Math.random()",
title from "p.title || p.description || p.alt_text || empty", link from
"p.link || null", image from the resolution chain. -/
def normalizePin (p : RawPin) : PinRecord :=
  let image := pickImageUrlFromPin p
  { id :=
      if strTruthy p.id then IdVal.str (p.id.getD "")
      else if strTruthy image then IdVal.str (image.getD "")
      else IdVal.randomId
    title := (jsOrStr p.title (jsOrStr p.description (jsOrStr p.alt_text (some "")))).getD ""
    link := jsOrStr p.link none
    image := image }

/-- A paged upstream JSON body: an optional items array of payloads, plus
the optional bookmark fields; items is none when absent or not an array. -/
structure UpJson (α : Type) where
  items : Option (List α)
  bookmark : Option String
  next_bookmark : Option String
  deriving DecidableEq, Repr

/-- A pins page body. -/
abbrev RawJson := UpJson RawPin

/-- Bookmark extraction "json?.bookmark || json?.next_bookmark || null". -/
def nextBookmark (json : UpJson α) : Option String :=
  jsOrStr json.bookmark (jsOrStr json.next_bookmark none)

/-- Collection normalizer (normalizePinsFromPinterest): items defaulted to
empty, mapped through normalizePin, and filtered to the records with a
truthy image. -/
def normalizePinsFromPinterest (json : RawJson) : List PinRecord :=
  ((json.items.getD []).map normalizePin).filter (fun r => strTruthy r.image)

/-- Upstream answer to one page request: an ok JSON body, a non-success
HTTP status with a raw body text, or a thrown fetch failure (timeout or
network error). -/
inductive PageResult where
  | ok (json : RawJson)
  | httpErr (status : Nat) (body : String)
  | fetchThrow (msg : String)
  deriving DecidableEq, Repr

/-- Error escaping fetchPinsPaged: the Pinterest-API-error carrying the
upstream status and the raw body text, or a propagated fetch throw. -/
inductive UpErr where
  | upstream (status : Nat) (body : String)
  | net (msg : String)
  deriving DecidableEq, Repr

/-- Inner accumulation loop shared by fetchPinsPaged and the /api/me/pins
fan-out: walk the normalized records, stop at the cap, skip ids already in
the seen set, otherwise record the id and append the record. -/
def pushUnseen (cap : Nat) : List PinRecord × List IdVal → List PinRecord → List PinRecord × List IdVal
  | (out, seen), [] => (out, seen)
  | (out, seen), p :: rest =>
    if cap ≤ out.length then (out, seen)
    else if p.id ∈ seen then pushUnseen cap (out, seen) rest
    else pushUnseen cap (out ++ [p], p.id :: seen) rest

/-- The clamp of fetchPinsPaged: "Math.min(Math.max(Number(limit) || 0, 1), 500)". -/
def safeLimitOf (limit : Int) : Nat :=
  (min (max limit 1) 500).toNat

/-- Page loop of fetchPinsPaged. fuel is the number of page fetches still
allowed (50 - loops, so fuel 0 is the 50-request ceiling), idx the index of
the next request. Returns the loop's outcome together with the number of
page requests issued. -/
def fetchLoop (up : Nat → PageResult) (safeLimit : Nat) :
    Nat → Nat → List PinRecord → List IdVal → Except UpErr (List PinRecord) × Nat
  | 0, _, out, _ => (Except.ok out, 0)
  | fuel + 1, idx, out, seen =>
    if out.length < safeLimit then
      match up idx with
      | PageResult.fetchThrow msg => (Except.error (UpErr.net msg), 1)
      | PageResult.httpErr status body => (Except.error (UpErr.upstream status body), 1)
      | PageResult.ok json =>
        let st := pushUnseen safeLimit (out, seen) (normalizePinsFromPinterest json)
        if (nextBookmark json).isSome then
          let r := fetchLoop up safeLimit fuel (idx + 1) st.1 st.2
          (r.1, r.2 + 1)
        else (Except.ok st.1, 1)
    else (Except.ok out, 0)

/-- Paged Collection Fetcher (fetchPinsPaged): clamp the limit, run the
page loop with the 50-fetch ceiling, and truncate an ok result to the
clamped limit. -/
def fetchPinsPaged (up : Nat → PageResult) (limit : Int) : Except UpErr (List PinRecord) :=
  ((fetchLoop up (safeLimitOf limit) 50 0 [] []).1).map (fun out => out.take (safeLimitOf limit))

/-- Number of page requests one fetchPinsPaged call issues. -/
def fetchRequests (up : Nat → PageResult) (limit : Int) : Nat :=
  (fetchLoop up (safeLimitOf limit) 50 0 [] []).2

/-- Accumulated (out, seen) state after feeding the first n ok pages of the
upstream through the accumulation loop; pages that are not ok contribute
nothing. Used to state when the page loop keeps going. -/
def pagesAcc (up : Nat → PageResult) (safeLimit : Nat) : Nat → List PinRecord × List IdVal
  | 0 => ([], [])
  | n + 1 =>
    match up n with
    | PageResult.ok json => pushUnseen safeLimit (pagesAcc up safeLimit n) (normalizePinsFromPinterest json)
    | _ => pagesAcc up safeLimit n

/-- A raw board entry of the boards listing; a none element models a null
item. -/
structure RawBoard where
  id : Option String
  name : Option String
  deriving DecidableEq, Repr

/-- A board kept by the enumeration: stringified id plus "name || empty". -/
structure Board where
  id : String
  name : String
  deriving DecidableEq, Repr

/-- A boards page body. -/
abbrev BoardsJson := UpJson (Option RawBoard)

/-- Upstream answer to one boards-listing page request. -/
inductive BoardsPage where
  | ok (json : BoardsJson)
  | httpErr (status : Nat) (body : String)
  | fetchThrow (msg : String)
  deriving DecidableEq, Repr

/-- Keep one raw boards item: skipped when null or with a falsy id. -/
def keepBoard : Option (RawBoard) → Option Board
  | none => none
  | some b =>
    if strTruthy b.id then some { id := b.id.getD "", name := (jsOrStr b.name (some "")).getD "" }
    else none

/-- Board-enumeration loop of /api/me/pins: up to 20 pages of the boards
listing, stopping at 500 boards or a missing bookmark; any page failure
(non-success status or throw) aborts the whole request. -/
def boardsLoop (up : Nat → BoardsPage) : Nat → Nat → List Board → Except Unit (List Board)
  | 0, _, boards => Except.ok boards
  | fuel + 1, idx, boards =>
    if boards.length < 500 then
      match up idx with
      | BoardsPage.fetchThrow _ => Except.error ()
      | BoardsPage.httpErr _ _ => Except.error ()
      | BoardsPage.ok json =>
        let boards := boards ++ (json.items.getD []).filterMap keepBoard
        if (nextBookmark json).isSome then boardsLoop up fuel (idx + 1) boards
        else Except.ok boards
    else Except.ok boards

/-- The limit of /api/me/pins: "Number(req.query.limit || 120)" clamped to
[1, 500]; none models an absent or empty limit parameter. -/
def mePinsLimit (limitQ : Option Int) : Nat :=
  (min (max (limitQ.getD 120) 1) 500).toNat

/-- Per-board fan-out of /api/me/pins: for each board in order, stop when
the cap is reached, fetch up to "min(200, limit - out.length)" pins from
that board (a failed fetch is skipped and the loop continues), and merge
through the shared accumulation loop. pinsUp gives board number bIdx's
upstream pages. -/
def boardFanout (pinsUp : Nat → Nat → PageResult) (limit : Nat) :
    Nat → List Board → List PinRecord × List IdVal → List PinRecord × List IdVal
  | _, [], st => st
  | bIdx, _b :: rest, (out, seen) =>
    if out.length < limit then
      match fetchPinsPaged (pinsUp bIdx) (min 200 ((limit : Int) - (out.length : Int))) with
      | Except.error _ => boardFanout pinsUp limit (bIdx + 1) rest (out, seen)
      | Except.ok pins => boardFanout pinsUp limit (bIdx + 1) rest (pushUnseen limit (out, seen) pins)
    else (out, seen)

/-- Outcome of one /api/me/pins request past the token check: a JSON body
with the item list, or an error status. -/
inductive ApiResp where
  | ok (items : List PinRecord)
  | err (status : Nat)
  deriving DecidableEq, Repr

/-- The /api/me/pins handler past the token check: clamp the limit,
enumerate boards (a failure there is a 502), answer empty for no boards,
otherwise fan out over the boards and truncate to the limit. -/
def mePinsHandler (boardsUp : Nat → BoardsPage) (pinsUp : Nat → Nat → PageResult)
    (limitQ : Option Int) : ApiResp :=
  let limit := mePinsLimit limitQ
  match boardsLoop boardsUp 20 0 [] with
  | Except.error _ => ApiResp.err 502
  | Except.ok boards =>
    if boards.isEmpty then ApiResp.ok []
    else ApiResp.ok ((boardFanout pinsUp limit 0 boards ([], [])).1.take limit)

/-- The allow-listed hostname suffixes of the image proxy. -/
def ALLOWED_IMAGE_HOST_SUFFIXES : List String :=
  [".pinimg.com", ".pinterest.com", ".unsplash.com"]

/-- Lower-casing of a hostname, character by character (hostnames are
ASCII). -/
def hostLower (s : String) : String :=
  String.mk (s.data.map Char.toLower)

/-- String suffix test, on the underlying character lists. -/
def endsWithSuffix (s suf : String) : Bool :=
  List.isSuffixOf suf.data s.data

/-- Host allow-list check of the image proxy: the lower-cased hostname must
end with one of the allow-listed suffixes. -/
def isAllowedImageHost (hostname : String) : Bool :=
  ALLOWED_IMAGE_HOST_SUFFIXES.any (fun suf => endsWithSuffix (hostLower hostname) suf)

/-- Outcome of the URL constructor on the query parameter: none when the
value is missing, empty, or does not parse as an absolute URL; otherwise
the parsed protocol (with trailing colon) and hostname. -/
structure ParsedUrl where
  protocol : String
  hostname : String
  deriving DecidableEq, Repr

/-- Upstream answer of the image proxy's fetch: an ok response with its
content-type header, numeric content-length header (none when absent) and
body presence, a non-success status, or a throw. -/
inductive ProxyUpstream where
  | ok (contentType : Option String) (contentLength : Option Int) (hasBody : Bool)
  | httpErr (status : Nat)
  | fetchThrow
  deriving DecidableEq, Repr

/-- Observable outcome of one image-proxy request: an error status sent
before any body, or a streamed body with its content type. -/
inductive ProxyResp where
  | status (code : Nat)
  | streamed (contentType : String)
  deriving DecidableEq, Repr

/-- The /api/image-proxy handler: reject an unparseable url with 400, a
non-http(s) protocol with 400, a non-allow-listed host with 403; a failed
or non-success upstream is a 502; a truthy declared content-length over
25 MiB is a 413 sent before any streaming; otherwise stream with the
content type defaulted to application/octet-stream. -/
def imageProxyHandler (parsed : Option ParsedUrl) (up : ProxyUpstream) : ProxyResp :=
  match parsed with
  | none => ProxyResp.status 400
  | some u =>
    if ¬ (u.protocol = "https:" ∨ u.protocol = "http:") then ProxyResp.status 400
    else if ¬ isAllowedImageHost u.hostname then ProxyResp.status 403
    else
      match up with
      | ProxyUpstream.fetchThrow => ProxyResp.status 502
      | ProxyUpstream.httpErr _ => ProxyResp.status 502
      | ProxyUpstream.ok ct cl _ =>
        let len := cl.getD 0
        if len ≠ 0 ∧ len > 25 * 1024 * 1024 then ProxyResp.status 413
        else ProxyResp.streamed ((jsOrStr ct (some "application/octet-stream")).getD "")

/-- The url-bearing entries of a variant map, in order: entries with a
null value or a falsy url are dropped, the rest keep key and variant. -/
def usableEntries (l : VariantMap) : List (String × Variant) :=
  l.filterMap (fun e =>
    match e.2 with
    | some v => if strTruthy v.url then some (e.1, v) else none
    | none => none)

/-- Score of a kept entry, under the code's scoring. -/
def entryScore (e : String × Variant) : Int :=
  variantScore e.1 e.2

/-- The url a kept entry carries (its url is a nonempty string). -/
def entryUrl (e : String × Variant) : String :=
  e.2.url.getD ""

/-- Modelled from the claim's words for comparison with the code: score =
width × height when both width and height are numeric (present), otherwise
the first run of digits parsed from the key, otherwise 999999. -/
def claimScoreC1 (e : String × Variant) : Int :=
  match e.2.width, e.2.height with
  | some w, some h => w * h
  | _, _ =>
    match firstDigitRun e.1 with
    | some n => (n : Int)
    | none => 999999

/-- Modelled from the claim's words: the url of the variant with the
highest claim score, first-seen winning exact ties, none when no variant
has a usable url. -/
def claimPickC1 (l : VariantMap) : Option String :=
  ((usableEntries l).argmax claimScoreC1).map entryUrl

/-- The normalized records one upstream page holds (empty for a failed
page); used to state order preservation of the aggregation. -/
def pageRecords (up : Nat → PageResult) (k : Nat) : List PinRecord :=
  match up k with
  | PageResult.ok json => normalizePinsFromPinterest json
  | _ => []

/-- The records pages idx, idx+1, …, idx+fuel-1 hold, in page order. -/
def pagesSlice (up : Nat → PageResult) : Nat → Nat → List PinRecord
  | _, 0 => []
  | idx, fuel + 1 => pageRecords up idx ++ pagesSlice up (idx + 1) fuel

/-- Every record the 50 reachable pages of one endpoint hold, in page
order. -/
def allPageRecords (up : Nat → PageResult) : List PinRecord :=
  pagesSlice up 0 50

/-- The records boards bIdx, …, bIdx+n-1 hold, in board order then page
order. -/
def boardsSlice (pinsUp : Nat → Nat → PageResult) : Nat → Nat → List PinRecord
  | _, 0 => []
  | bIdx, n + 1 => allPageRecords (pinsUp bIdx) ++ boardsSlice pinsUp (bIdx + 1) n

/-- Every record the first n boards' pages hold, in board order then page
order. -/
def allBoardsRecords (pinsUp : Nat → Nat → PageResult) (n : Nat) : List PinRecord :=
  boardsSlice pinsUp 0 n

/-- The item list of an ok API response. -/
def apiItems : ApiResp → Option (List PinRecord)
  | ApiResp.ok items => some items
  | ApiResp.err _ => none

/-- The record list of an ok paged fetch. -/
def fetchedItems : Except UpErr (List PinRecord) → Option (List PinRecord)
  | Except.ok out => some out
  | Except.error _ => none

/-- A raw pin numbered n: distinct truthy id, a truthy scalar image_url. -/
def numPin (n : Nat) : RawPin :=
  { media_images := none, images := none, image_url := some "u", thumbnail_url := none,
    id := some (Nat.repr n), title := none, description := none, alt_text := none, link := none }

/-- An upstream whose page k holds pins 50k … 50k+49 and always hands out
a bookmark. -/
def pagesOf50 : Nat → PageResult := fun k =>
  PageResult.ok
    { items := some ((List.range 50).map (fun j => numPin (k * 50 + j))),
      bookmark := some "b", next_bookmark := none }

/-- A per-board upstream: every board serves the pagesOf50 pages. -/
def boardsPins50 : Nat → Nat → PageResult := fun _ => pagesOf50

/-- A boards listing with a single board and no further page. -/
def oneBoardUp : Nat → BoardsPage := fun _ =>
  BoardsPage.ok
    { items := some [some { id := some "board1", name := none }],
      bookmark := none, next_bookmark := none }

/-- An upstream whose every page holds the one pin of its index and hands
out a bookmark. -/
def onePinPages : Nat → PageResult := fun k =>
  PageResult.ok
    { items := some [numPin k], bookmark := some "b", next_bookmark := none }

/-- An upstream whose first page is ok without a bookmark. -/
def noBookmarkPage : Nat → PageResult := fun _ =>
  PageResult.ok { items := some [], bookmark := none, next_bookmark := none }

/-- An upstream that answers page 0 normally and fails page 1 with a 500. -/
def failsOnPage1 : Nat → PageResult := fun k =>
  if k = 0 then onePinPages 0 else PageResult.httpErr 500 "bad"

/-- A per-board upstream whose every fetch throws. -/
def allThrowPins : Nat → Nat → PageResult := fun _ _ =>
  PageResult.fetchThrow "x"

/-- Nonnegativity of a variant-map value's dimensions, wherever present. -/
def dimsNonneg : Option Variant → Bool
  | none => true
  | some v =>
    (match v.width with
     | some w => decide (0 ≤ w)
     | none => true)
    && (match v.height with
        | some h => decide (0 ≤ h)
        | none => true)

/-- A variant map on which the code and the claim's scoring policy pick
different variants: the first entry has a numeric width of 0, so the code
scores it from the digits of its key (5) while the claim's policy scores
it 0 × 5 = 0, below the second entry's 2 × 2 = 4. -/
def exC1 : VariantMap :=
  [("5x", some { url := some "u1", width := some 0, height := some 5 }),
   ("b", some { url := some "u2", width := some 2, height := some 2 })]

/-- A boards listing with two boards and no further page. -/
def twoBoardsUp : Nat → BoardsPage := fun _ =>
  BoardsPage.ok
    { items := some [some { id := some "b1", name := none }, some { id := some "b2", name := none }],
      bookmark := none, next_bookmark := none }

/-- A per-board upstream where every board's only page holds the same
single pin. -/
def samePinBoth : Nat → Nat → PageResult := fun _ _ =>
  PageResult.ok { items := some [numPin 7], bookmark := none, next_bookmark := none }

/-- A raw pin whose media.images holds one variant. -/
def pinMedia : RawPin :=
  { media_images := some [("orig", some { url := some "m", width := none, height := none })],
    images := none, image_url := some "x", thumbnail_url := none, id := some "1",
    title := none, description := none, alt_text := none, link := none }

/-- A raw pin with only the legacy images map. -/
def pinImages : RawPin :=
  { media_images := none,
    images := some [("600x", some { url := some "g", width := none, height := none })],
    image_url := some "x", thumbnail_url := none, id := some "2",
    title := none, description := none, alt_text := none, link := none }

/-- A raw pin with only the scalar image_url. -/
def pinScalar : RawPin :=
  { media_images := none, images := none, image_url := some "x", thumbnail_url := some "t",
    id := some "3", title := none, description := none, alt_text := none, link := none }

/-- A raw pin with only the scalar thumbnail_url. -/
def pinThumb : RawPin :=
  { media_images := none, images := none, image_url := none, thumbnail_url := some "t",
    id := some "4", title := none, description := none, alt_text := none, link := none }

/-- A raw pin with no image-bearing field at all. -/
def pinBare : RawPin :=
  { media_images := none, images := none, image_url := none, thumbnail_url := none,
    id := some "5", title := none, description := none, alt_text := none, link := none }

/-- A page body with no items array. -/
def emptyJson : RawJson :=
  { items := none, bookmark := none, next_bookmark := none }

/-! Helper lemmas. -/

theorem strTruthy_eq_some {o : Option String} (h : strTruthy o = true) :
    o = some (o.getD "") := by
  cases o with
  | none => simp [strTruthy] at h
  | some s => rfl

theorem strTruthy_none : strTruthy none = false := rfl

/-! Claim C4: the image proxy's rejection paths. -/

/-- Claim C4: for every url query parameter, the image proxy rejects with
status 400 any value that does not parse as an absolute URL with scheme
http or https, rejects with status 403 any URL whose hostname does not end
with an allow-listed suffix (the code's lower-cased suffix check), rejects
with status 413 before streaming any body when the upstream's declared
content-length exceeds 25 MiB, and surfaces any upstream non-success
status as 502. -/
theorem claim_C4 (parsed : Option ParsedUrl) (up : ProxyUpstream) :
    (parsed = none → imageProxyHandler parsed up = ProxyResp.status 400)
    ∧ (∀ u, parsed = some u → u.protocol ≠ "https:" → u.protocol ≠ "http:" →
        imageProxyHandler parsed up = ProxyResp.status 400)
    ∧ (∀ u, parsed = some u → (u.protocol = "https:" ∨ u.protocol = "http:") →
        isAllowedImageHost u.hostname = false →
        imageProxyHandler parsed up = ProxyResp.status 403)
    ∧ (∀ u ct cl hb, parsed = some u → (u.protocol = "https:" ∨ u.protocol = "http:") →
        isAllowedImageHost u.hostname = true →
        up = ProxyUpstream.ok ct cl hb → 25 * 1024 * 1024 < cl.getD 0 →
        imageProxyHandler parsed up = ProxyResp.status 413)
    ∧ (∀ u status, parsed = some u → (u.protocol = "https:" ∨ u.protocol = "http:") →
        isAllowedImageHost u.hostname = true → up = ProxyUpstream.httpErr status →
        imageProxyHandler parsed up = ProxyResp.status 502) := by
  refine ⟨?_, ?_, ?_, ?_, ?_⟩
  · rintro rfl
    rfl
  · rintro u rfl h1 h2
    simp [imageProxyHandler, h1, h2]
  · rintro u rfl hp hh
    simp [imageProxyHandler, hp, hh]
  · rintro u ct cl hb rfl hp hh rfl hlen
    have hz : cl.getD 0 ≠ 0 := by omega
    simp [imageProxyHandler, hp, hh, hz]
    omega
  · rintro u status rfl hp hh rfl
    simp [imageProxyHandler, hp, hh]

/-- Witness for claim C4: each rejection path of the theorem at a concrete
input. -/
theorem claim_C4_witness :
    imageProxyHandler none (ProxyUpstream.httpErr 404) = ProxyResp.status 400
    ∧ imageProxyHandler (some ⟨"ftp:", "i.pinimg.com"⟩) (ProxyUpstream.httpErr 404)
        = ProxyResp.status 400
    ∧ imageProxyHandler (some ⟨"https:", "evil.example.com"⟩) (ProxyUpstream.httpErr 404)
        = ProxyResp.status 403
    ∧ imageProxyHandler (some ⟨"https:", "i.pinimg.com"⟩)
        (ProxyUpstream.ok none (some (30 * 1024 * 1024)) true) = ProxyResp.status 413
    ∧ imageProxyHandler (some ⟨"https:", "i.pinimg.com"⟩) (ProxyUpstream.httpErr 500)
        = ProxyResp.status 502 := by
  refine ⟨(claim_C4 none (ProxyUpstream.httpErr 404)).1 rfl, ?_, ?_, ?_, ?_⟩
  · exact (claim_C4 _ _).2.1 _ rfl (by decide) (by decide)
  · exact (claim_C4 _ _).2.2.1 _ rfl (Or.inl rfl) (by decide)
  · exact (claim_C4 _ _).2.2.2.1 _ none (some (30 * 1024 * 1024)) true rfl (Or.inl rfl)
      (by decide) rfl (by decide)
  · exact (claim_C4 _ _).2.2.2.2 _ 500 rfl (Or.inl rfl) (by decide) rfl

/-! Claim C7: the Normalizer's image resolution order and the collection
normalizer's shape. -/

/-- Claim C7: for every raw pin, the Normalizer resolves the image field by
trying media.images via the Selector, then the legacy images map via the
Selector, then the scalar image_url, then thumbnail_url, and gives up
otherwise; normalizeCollection reads the items array (treated as empty
when absent or not an array), maps each element through normalize,
excludes every pin with no resolvable image, and preserves the input order
of the kept records. -/
theorem claim_C7 (p : RawPin) (json : RawJson) :
    (∀ u, pickBestImageVariant p.media_images = some u → pickImageUrlFromPin p = some u)
    ∧ (∀ u, pickBestImageVariant p.media_images = none →
        pickBestImageVariant p.images = some u → pickImageUrlFromPin p = some u)
    ∧ (pickBestImageVariant p.media_images = none → pickBestImageVariant p.images = none →
        strTruthy p.image_url = true → pickImageUrlFromPin p = p.image_url)
    ∧ (pickBestImageVariant p.media_images = none → pickBestImageVariant p.images = none →
        strTruthy p.image_url = false → strTruthy p.thumbnail_url = true →
        pickImageUrlFromPin p = p.thumbnail_url)
    ∧ (pickBestImageVariant p.media_images = none → pickBestImageVariant p.images = none →
        strTruthy p.image_url = false → strTruthy p.thumbnail_url = false →
        pickImageUrlFromPin p = none)
    ∧ (json.items = none → normalizePinsFromPinterest json = [])
    ∧ (∀ items, json.items = some items →
        normalizePinsFromPinterest json
          = (items.map normalizePin).filter (fun r => strTruthy r.image))
    ∧ (∀ r ∈ normalizePinsFromPinterest json, strTruthy r.image = true)
    ∧ (normalizePinsFromPinterest json).Sublist ((json.items.getD []).map normalizePin) := by
  refine ⟨?_, ?_, ?_, ?_, ?_, ?_, ?_, ?_, ?_⟩
  · intro u h
    simp [pickImageUrlFromPin, h]
  · intro u h1 h2
    simp [pickImageUrlFromPin, h1, h2]
  · intro h1 h2 h3
    simp [pickImageUrlFromPin, h1, h2, h3]
  · intro h1 h2 h3 h4
    simp [pickImageUrlFromPin, h1, h2, h3, h4]
  · intro h1 h2 h3 h4
    simp [pickImageUrlFromPin, h1, h2, h3, h4]
  · intro h
    simp [normalizePinsFromPinterest, h]
  · intro items h
    simp [normalizePinsFromPinterest, h]
  · intro r hr
    have hr2 : r ∈ ((json.items.getD []).map normalizePin).filter (fun t => strTruthy t.image) := hr
    exact (List.mem_filter.1 hr2).2
  · exact List.filter_sublist _

/-- Witness for claim C7: each resolution step of the theorem at a
concrete pin, and the collection normalizer at a concrete body. -/
theorem claim_C7_witness :
    pickImageUrlFromPin pinMedia = some "m"
    ∧ pickImageUrlFromPin pinImages = some "g"
    ∧ pickImageUrlFromPin pinScalar = some "x"
    ∧ pickImageUrlFromPin pinThumb = some "t"
    ∧ pickImageUrlFromPin pinBare = none
    ∧ normalizePinsFromPinterest emptyJson = []
    ∧ normalizePinsFromPinterest
        { items := some [pinBare, pinScalar], bookmark := none, next_bookmark := none }
        = ([pinBare, pinScalar].map normalizePin).filter (fun r => strTruthy r.image) := by
  refine ⟨?_, ?_, ?_, ?_, ?_, ?_, ?_⟩
  · exact (claim_C7 pinMedia emptyJson).1 "m" rfl
  · exact (claim_C7 pinImages emptyJson).2.1 "g" rfl rfl
  · exact (claim_C7 pinScalar emptyJson).2.2.1 rfl rfl rfl
  · exact (claim_C7 pinThumb emptyJson).2.2.2.1 rfl rfl rfl rfl
  · exact (claim_C7 pinBare emptyJson).2.2.2.2.1 rfl rfl rfl rfl
  · exact (claim_C7 pinBare emptyJson).2.2.2.2.2.1 rfl
  · exact (claim_C7 pinBare
      { items := some [pinBare, pinScalar], bookmark := none, next_bookmark := none
        }).2.2.2.2.2.2.1 [pinBare, pinScalar] rfl

/-! Claim C10: what survives normalization. -/

/-- Claim C10: every record in the collection normalizer's output has a
truthy string image field, and its id equals the stringified upstream id
when that id is truthy and otherwise equals the resolved image URL; the
random-id fallback never appears in an output record, because any record
for which it would fire (no truthy id and no resolvable image) is filtered
out for lacking an image. -/
theorem claim_C10 (json : RawJson) (p : RawPin) :
    (∀ r ∈ normalizePinsFromPinterest json, strTruthy r.image = true ∧ r.id ≠ IdVal.randomId)
    ∧ (strTruthy (pickImageUrlFromPin p) = true →
        (strTruthy p.id = true → (normalizePin p).id = IdVal.str (p.id.getD ""))
        ∧ (strTruthy p.id = false →
            (normalizePin p).id = IdVal.str ((pickImageUrlFromPin p).getD ""))) := by
  constructor
  · intro r hr
    have hr2 : r ∈ ((json.items.getD []).map normalizePin).filter (fun t => strTruthy t.image) := hr
    have h1 : strTruthy r.image = true := (List.mem_filter.1 hr2).2
    refine ⟨h1, ?_⟩
    have h2 : r ∈ (json.items.getD []).map normalizePin := (List.mem_filter.1 hr2).1
    obtain ⟨q, _hq, rfl⟩ := List.mem_map.1 h2
    have h3 : strTruthy (pickImageUrlFromPin q) = true := h1
    by_cases hid : strTruthy q.id = true
    · simp [normalizePin, hid]
    · simp [normalizePin, hid, h3]
  · intro himg
    constructor
    · intro hid
      simp [normalizePin, hid]
    · intro hid
      simp [normalizePin, hid, himg]

/-- Witness for claim C10: one concrete pin with a truthy id and one with
only an image, both run through the theorem. -/
theorem claim_C10_witness :
    (normalizePin (numPin 3)).id = IdVal.str "3"
    ∧ (normalizePin
        { media_images := none, images := none, image_url := some "img", thumbnail_url := none,
          id := none, title := none, description := none, alt_text := none, link := none }).id
        = IdVal.str "img" := by
  constructor
  · exact ((claim_C10 { items := none, bookmark := none, next_bookmark := none }
      (numPin 3)).2 (by decide)).1 (by decide)
  · exact ((claim_C10 { items := none, bookmark := none, next_bookmark := none }
      { media_images := none, images := none, image_url := some "img", thumbnail_url := none,
        id := none, title := none, description := none, alt_text := none, link := none }).2
      (by decide)).2 (by decide)

/-! Claim C3: per-board failure isolation of the aggregation. -/

/-- Claim C3: during a /api/me/pins multi-board aggregation, a board whose
pin fetch fails (throw or non-success status, both reaching the fan-out as
an error) is skipped and the aggregation continues with the remaining
boards; whenever board enumeration itself succeeded, the handler answers
ok whatever the per-board upstreams do, so a single board's failure never
causes the overall request to fail. -/
theorem claim_C3 (boardsUp : Nat → BoardsPage) (pinsUp : Nat → Nat → PageResult)
    (limitQ : Option Int) (limit bIdx : Nat) (b : Board) (rest : List Board)
    (out : List PinRecord) (seen : List IdVal) (e : UpErr) (bs : List Board) :
    (out.length < limit →
      fetchPinsPaged (pinsUp bIdx) (min 200 ((limit : Int) - (out.length : Int)))
        = Except.error e →
      boardFanout pinsUp limit bIdx (b :: rest) (out, seen)
        = boardFanout pinsUp limit (bIdx + 1) rest (out, seen))
    ∧ (boardsLoop boardsUp 20 0 [] = Except.ok bs →
      ∃ items, mePinsHandler boardsUp pinsUp limitQ = ApiResp.ok items) := by
  constructor
  · intro hlt herr
    rw [boardFanout, if_pos hlt, herr]
  · intro hbs
    rw [mePinsHandler, hbs]
    dsimp only
    by_cases hempty : bs.isEmpty
    · rw [if_pos hempty]
      exact ⟨[], rfl⟩
    · rw [if_neg hempty]
      exact ⟨_, rfl⟩

/-- Witness for claim C3: a single-board listing whose board's every pin
fetch throws still yields an ok (empty) response, and the skip equation at
a concrete failing board. -/
theorem claim_C3_witness :
    (∃ items, mePinsHandler oneBoardUp allThrowPins none = ApiResp.ok items)
    ∧ boardFanout allThrowPins 5 0 [{ id := "board1", name := "" }] ([], [])
        = boardFanout allThrowPins 5 1 [] ([], []) := by
  constructor
  · exact (claim_C3 oneBoardUp allThrowPins none 5 0 { id := "board1", name := "" } []
      [] [] (UpErr.net "x") [{ id := "board1", name := "" }]).2 rfl
  · exact (claim_C3 oneBoardUp allThrowPins none 5 0 { id := "board1", name := "" } []
      [] [] (UpErr.net "x") [{ id := "board1", name := "" }]).1 (by decide) rfl

/-! Claim C6: a failed page aborts the whole paged fetch. -/

theorem fetchLoop_error_of_httpErr (up : Nat → PageResult) (sl : Nat) :
    ∀ (fuel idx k s : Nat) (b : String) (out : List PinRecord) (seen : List IdVal),
      up k = PageResult.httpErr s b → idx ≤ k →
      k - idx < (fetchLoop up sl fuel idx out seen).2 →
      (fetchLoop up sl fuel idx out seen).1 = Except.error (UpErr.upstream s b) := by
  intro fuel
  induction fuel with
  | zero =>
    intro idx k s b out seen _ _ hcount
    simp [fetchLoop] at hcount
  | succ fuel ih =>
    intro idx k s b out seen hk hle hcount
    rw [fetchLoop] at hcount ⊢
    by_cases hlen : out.length < sl
    · rw [if_pos hlen] at hcount ⊢
      cases hup : up idx with
      | fetchThrow msg =>
        rw [hup] at hcount
        dsimp only at hcount
        have hki : k = idx := by omega
        rw [hki, hup] at hk
        exact absurd hk (by simp)
      | httpErr s2 b2 =>
        rw [hup] at hcount
        dsimp only at hcount ⊢
        have hki : k = idx := by omega
        rw [hki, hup] at hk
        injection hk with h1 h2
        simp [h1, h2]
      | ok json =>
        rw [hup] at hcount
        dsimp only at hcount ⊢
        by_cases hbm : (nextBookmark json).isSome
        · simp only [hbm, if_true] at hcount ⊢
          have hne : k ≠ idx := by
            intro hcon
            rw [hcon, hup] at hk
            exact absurd hk (by simp)
          have hle2 : idx + 1 ≤ k := by omega
          have hcount2 : k - (idx + 1)
              < (fetchLoop up sl fuel (idx + 1)
                  (pushUnseen sl (out, seen) (normalizePinsFromPinterest json)).1
                  (pushUnseen sl (out, seen) (normalizePinsFromPinterest json)).2).2 := by
            omega
          exact ih (idx + 1) k s b _ _ hk hle2 hcount2
        · rw [Bool.not_eq_true] at hbm
          rw [hbm] at hcount
          simp at hcount
          have hki : k = idx := by omega
          rw [hki, hup] at hk
          exact absurd hk (by simp)
    · rw [if_neg hlen] at hcount
      simp at hcount

/-- Claim C6: if any page request inside a fetchPinsPaged call (any k below
the number of page requests the call issues) returns a non-success HTTP
status, the entire paged fetch aborts with an error carrying the upstream
status and the raw body text, so records accumulated from earlier pages of
that call are discarded rather than returned. -/
theorem claim_C6 (up : Nat → PageResult) (limit : Int) (k s : Nat) (b : String) :
    up k = PageResult.httpErr s b → k < fetchRequests up limit →
    fetchPinsPaged up limit = Except.error (UpErr.upstream s b) := by
  intro hk hcount
  have h := fetchLoop_error_of_httpErr up (safeLimitOf limit) 50 0 k s b [] [] hk
    (Nat.zero_le k) (by simpa [fetchRequests] using hcount)
  simp [fetchPinsPaged, h, Except.map]

/-- Witness for claim C6: an upstream failing on its second page makes the
whole fetch return the 500 error even though page one was fine. -/
theorem claim_C6_witness :
    failsOnPage1 1 = PageResult.httpErr 500 "bad"
    ∧ 1 < fetchRequests failsOnPage1 5
    ∧ fetchPinsPaged failsOnPage1 5 = Except.error (UpErr.upstream 500 "bad") :=
  ⟨rfl, by decide, claim_C6 failsOnPage1 5 1 500 "bad" rfl (by decide)⟩

/-! Claim C2: deduplication within one logical request. -/

theorem pushUnseen_inv (cap : Nat) :
    ∀ (l out : List PinRecord) (seen : List IdVal),
      (out.map PinRecord.id).Nodup → (∀ i ∈ out.map PinRecord.id, i ∈ seen) →
      ((pushUnseen cap (out, seen) l).1.map PinRecord.id).Nodup
      ∧ ∀ i ∈ (pushUnseen cap (out, seen) l).1.map PinRecord.id,
          i ∈ (pushUnseen cap (out, seen) l).2 := by
  intro l
  induction l with
  | nil =>
    intro out seen h1 h2
    exact ⟨h1, h2⟩
  | cons p rest ih =>
    intro out seen h1 h2
    rw [pushUnseen]
    by_cases hcap : cap ≤ out.length
    · rw [if_pos hcap]
      exact ⟨h1, h2⟩
    · rw [if_neg hcap]
      by_cases hseen : p.id ∈ seen
      · rw [if_pos hseen]
        exact ih out seen h1 h2
      · rw [if_neg hseen]
        have hnot : p.id ∉ out.map PinRecord.id := fun hmem => hseen (h2 _ hmem)
        have h1b : ((out ++ [p]).map PinRecord.id).Nodup := by
          rw [List.map_append]
          simp only [List.map_cons, List.map_nil]
          have hdisj : (out.map PinRecord.id).Disjoint [p.id] := by
            intro a ha hb
            simp at hb
            rw [hb] at ha
            exact hnot ha
          exact List.Nodup.append h1 (List.nodup_singleton _) hdisj
        have h2b : ∀ i ∈ (out ++ [p]).map PinRecord.id, i ∈ p.id :: seen := by
          intro i hi
          rw [List.map_append] at hi
          rcases List.mem_append.1 hi with hi | hi
          · exact List.mem_cons_of_mem _ (h2 _ hi)
          · simp at hi
            simp [hi]
        exact ih (out ++ [p]) (p.id :: seen) h1b h2b

theorem fetchLoop_nodup (up : Nat → PageResult) (sl : Nat) :
    ∀ (fuel idx : Nat) (out : List PinRecord) (seen : List IdVal) (res : List PinRecord),
      (out.map PinRecord.id).Nodup → (∀ i ∈ out.map PinRecord.id, i ∈ seen) →
      (fetchLoop up sl fuel idx out seen).1 = Except.ok res →
      (res.map PinRecord.id).Nodup := by
  intro fuel
  induction fuel with
  | zero =>
    intro idx out seen res h1 _h2 hres
    rw [fetchLoop] at hres
    injection hres with h
    rw [← h]
    exact h1
  | succ fuel ih =>
    intro idx out seen res h1 h2 hres
    rw [fetchLoop] at hres
    by_cases hlen : out.length < sl
    · rw [if_pos hlen] at hres
      cases hup : up idx with
      | fetchThrow msg =>
        rw [hup] at hres
        exact absurd hres (by simp)
      | httpErr s2 b2 =>
        rw [hup] at hres
        exact absurd hres (by simp)
      | ok json =>
        rw [hup] at hres
        dsimp only at hres
        have hinv := pushUnseen_inv sl (normalizePinsFromPinterest json) out seen h1 h2
        by_cases hbm : (nextBookmark json).isSome
        · rw [if_pos hbm] at hres
          exact ih (idx + 1) _ _ res hinv.1 hinv.2 hres
        · rw [if_neg hbm] at hres
          injection hres with h
          rw [← h]
          exact hinv.1
    · rw [if_neg hlen] at hres
      injection hres with h
      rw [← h]
      exact h1

theorem boardFanout_nodup (pinsUp : Nat → Nat → PageResult) (limit : Nat) :
    ∀ (boards : List Board) (bIdx : Nat) (out : List PinRecord) (seen : List IdVal),
      (out.map PinRecord.id).Nodup → (∀ i ∈ out.map PinRecord.id, i ∈ seen) →
      ((boardFanout pinsUp limit bIdx boards (out, seen)).1.map PinRecord.id).Nodup
      ∧ ∀ i ∈ (boardFanout pinsUp limit bIdx boards (out, seen)).1.map PinRecord.id,
          i ∈ (boardFanout pinsUp limit bIdx boards (out, seen)).2 := by
  intro boards
  induction boards with
  | nil =>
    intro bIdx out seen h1 h2
    exact ⟨h1, h2⟩
  | cons b rest ih =>
    intro bIdx out seen h1 h2
    rw [boardFanout]
    by_cases hlen : out.length < limit
    · rw [if_pos hlen]
      cases hfetch : fetchPinsPaged (pinsUp bIdx) (min 200 ((limit : Int) - (out.length : Int))) with
      | error e => exact ih (bIdx + 1) out seen h1 h2
      | ok pins =>
        have hinv := pushUnseen_inv limit pins out seen h1 h2
        exact ih (bIdx + 1) _ _ hinv.1 hinv.2
    · rw [if_neg hlen]
      exact ⟨h1, h2⟩

/-- Claim C2: a single fetchPinsPaged call returns no two records with the
same id, and a single /api/me/pins aggregation returns no two records with
the same id — in particular a pin whose id appears in two boards'
collections is emitted at most once, and (being deduplicated, not dropped)
exactly once when it is emitted at all. -/
theorem claim_C2 (up : Nat → PageResult) (limit : Int) (boardsUp : Nat → BoardsPage)
    (pinsUp : Nat → Nat → PageResult) (limitQ : Option Int) :
    (∀ out, fetchPinsPaged up limit = Except.ok out → (out.map PinRecord.id).Nodup)
    ∧ (∀ items, mePinsHandler boardsUp pinsUp limitQ = ApiResp.ok items →
        (items.map PinRecord.id).Nodup) := by
  constructor
  · intro out hout
    rw [fetchPinsPaged] at hout
    cases hloop : (fetchLoop up (safeLimitOf limit) 50 0 [] []).1 with
    | error e =>
      rw [hloop] at hout
      exact absurd hout (by simp [Except.map])
    | ok res =>
      rw [hloop] at hout
      simp [Except.map] at hout
      have hnd : (res.map PinRecord.id).Nodup :=
        fetchLoop_nodup up (safeLimitOf limit) 50 0 [] [] res (by simp) (by simp) hloop
      rw [← hout]
      exact List.Nodup.sublist (List.Sublist.map _ (List.take_sublist _ _)) hnd
  · intro items hitems
    rw [mePinsHandler] at hitems
    cases hbl : boardsLoop boardsUp 20 0 [] with
    | error e =>
      rw [hbl] at hitems
      exact absurd hitems (by simp)
    | ok boards =>
      rw [hbl] at hitems
      dsimp only at hitems
      by_cases hempty : boards.isEmpty
      · rw [if_pos hempty] at hitems
        injection hitems with h
        rw [← h]
        exact List.nodup_nil
      · rw [if_neg hempty] at hitems
        injection hitems with h
        rw [← h]
        have hnd := (boardFanout_nodup pinsUp (mePinsLimit limitQ) boards 0 [] []
          (by simp) (by simp)).1
        exact List.Nodup.sublist (List.Sublist.map _ (List.take_sublist _ _)) hnd

/-- Witness for claim C2: the same pin served by two boards is emitted
exactly once, and the two Nodup conclusions at concrete upstreams. -/
theorem claim_C2_witness :
    apiItems (mePinsHandler twoBoardsUp samePinBoth none)
      = some [normalizePin (numPin 7)]
    ∧ ((((fetchedItems (fetchPinsPaged onePinPages 3)).getD []).map PinRecord.id).Nodup)
    ∧ ((((apiItems (mePinsHandler twoBoardsUp samePinBoth none)).getD []).map
        PinRecord.id).Nodup) := by
  refine ⟨rfl, ?_, ?_⟩
  · exact (claim_C2 onePinPages 3 twoBoardsUp samePinBoth none).1 _ rfl
  · exact (claim_C2 onePinPages 3 twoBoardsUp samePinBoth none).2 _ rfl

/-! Claim C9: the limit parameter of /api/me/pins. -/

theorem mePinsHandler_items (boardsUp : Nat → BoardsPage) (pinsUp : Nat → Nat → PageResult)
    (limitQ : Option Int) (items : List PinRecord) :
    mePinsHandler boardsUp pinsUp limitQ = ApiResp.ok items →
    items = [] ∨ ∃ boards,
      items = (boardFanout pinsUp (mePinsLimit limitQ) 0 boards ([], [])).1.take
        (mePinsLimit limitQ) := by
  intro hitems
  rw [mePinsHandler] at hitems
  cases hbl : boardsLoop boardsUp 20 0 [] with
  | error e =>
    rw [hbl] at hitems
    exact absurd hitems (by simp)
  | ok boards =>
    rw [hbl] at hitems
    dsimp only at hitems
    by_cases hempty : boards.isEmpty
    · rw [if_pos hempty] at hitems
      injection hitems with h
      exact Or.inl h.symm
    · rw [if_neg hempty] at hitems
      injection hitems with h
      exact Or.inr ⟨boards, h.symm⟩

/-- Claim C9: for every GET /api/me/pins request, the limit query
parameter defaults to 120 when absent and is clamped to the range
[1, 500], and the response's items array has length at most that clamped
limit. -/
theorem claim_C9 (boardsUp : Nat → BoardsPage) (pinsUp : Nat → Nat → PageResult)
    (limitQ : Option Int) :
    mePinsLimit none = 120
    ∧ 1 ≤ mePinsLimit limitQ
    ∧ mePinsLimit limitQ ≤ 500
    ∧ ∀ items, mePinsHandler boardsUp pinsUp limitQ = ApiResp.ok items →
        items.length ≤ mePinsLimit limitQ := by
  refine ⟨by decide, ?_, ?_, ?_⟩
  · unfold mePinsLimit
    omega
  · unfold mePinsLimit
    omega
  · intro items hitems
    rcases mePinsHandler_items boardsUp pinsUp limitQ items hitems with h | ⟨boards, h⟩
    · rw [h]
      simp
    · rw [h]
      exact List.length_take_le _ _

/-- Witness for claim C9: a negative limit parameter is clamped to 1 and
the response at a concrete upstream respects it. -/
theorem claim_C9_witness :
    mePinsLimit none = 120
    ∧ 1 ≤ mePinsLimit (some (-5))
    ∧ mePinsLimit (some (-5)) ≤ 500
    ∧ mePinsLimit (some (-5)) = 1
    ∧ ((apiItems (mePinsHandler oneBoardUp boardsPins50 (some (-5)))).getD []).length
        ≤ mePinsLimit (some (-5)) := by
  refine ⟨(claim_C9 oneBoardUp boardsPins50 (some (-5))).1,
    (claim_C9 oneBoardUp boardsPins50 (some (-5))).2.1,
    (claim_C9 oneBoardUp boardsPins50 (some (-5))).2.2.1, by decide, ?_⟩
  exact (claim_C9 oneBoardUp boardsPins50 (some (-5))).2.2.2 _ rfl

/-! Claim C5: the 50-request ceiling and the loop's stop conditions. -/

theorem fetchLoop_count_le (up : Nat → PageResult) (sl : Nat) :
    ∀ (fuel idx : Nat) (out : List PinRecord) (seen : List IdVal),
      (fetchLoop up sl fuel idx out seen).2 ≤ fuel := by
  intro fuel
  induction fuel with
  | zero =>
    intro idx out seen
    rw [fetchLoop]
  | succ fuel ih =>
    intro idx out seen
    rw [fetchLoop]
    by_cases hlen : out.length < sl
    · rw [if_pos hlen]
      cases up idx with
      | fetchThrow msg =>
        dsimp only
        omega
      | httpErr s b =>
        dsimp only
        omega
      | ok json =>
        dsimp only
        by_cases hbm : (nextBookmark json).isSome
        · rw [if_pos hbm]
          have := ih (idx + 1) (pushUnseen sl (out, seen) (normalizePinsFromPinterest json)).1
            (pushUnseen sl (out, seen) (normalizePinsFromPinterest json)).2
          omega
        · rw [if_neg hbm]
          omega
    · rw [if_neg hlen]
      omega

theorem fetchLoop_count_pos (up : Nat → PageResult) (sl fuel idx : Nat)
    (out : List PinRecord) (seen : List IdVal)
    (h : 1 ≤ (fetchLoop up sl fuel idx out seen).2) : out.length < sl := by
  cases fuel with
  | zero =>
    rw [fetchLoop] at h
    simp at h
  | succ fuel =>
    by_contra hlen
    rw [fetchLoop, if_neg hlen] at h
    simp at h

theorem fetchLoop_progress (up : Nat → PageResult) (sl : Nat) :
    ∀ (fuel m k : Nat), m ≤ k →
      k + 1 - m < (fetchLoop up sl fuel m (pagesAcc up sl m).1 (pagesAcc up sl m).2).2 →
      (pagesAcc up sl (k + 1)).1.length < sl
      ∧ ∃ json, up k = PageResult.ok json ∧ (nextBookmark json).isSome = true := by
  intro fuel
  induction fuel with
  | zero =>
    intro m k hmk h
    rw [fetchLoop] at h
    simp at h
  | succ fuel ih =>
    intro m k hmk h
    rw [fetchLoop] at h
    by_cases hlen : (pagesAcc up sl m).1.length < sl
    · rw [if_pos hlen] at h
      cases hup : up m with
      | fetchThrow msg =>
        rw [hup] at h
        dsimp only at h
        omega
      | httpErr s b =>
        rw [hup] at h
        dsimp only at h
        omega
      | ok json =>
        rw [hup] at h
        dsimp only at h
        by_cases hbm : (nextBookmark json).isSome
        · rw [if_pos hbm] at h
          have hstate : pushUnseen sl ((pagesAcc up sl m).1, (pagesAcc up sl m).2)
              (normalizePinsFromPinterest json) = pagesAcc up sl (m + 1) := by
            rw [pagesAcc, hup]
          rw [hstate] at h
          rcases Nat.eq_or_lt_of_le hmk with hkm | hlt
          · refine ⟨?_, ⟨json, by rw [hkm] at hup; exact hup, hbm⟩⟩
            have hr : 1 ≤ (fetchLoop up sl fuel (m + 1)
                (pagesAcc up sl (m + 1)).1 (pagesAcc up sl (m + 1)).2).2 := by
              omega
            have := fetchLoop_count_pos up sl fuel (m + 1)
              (pagesAcc up sl (m + 1)).1 (pagesAcc up sl (m + 1)).2 hr
            rw [hkm] at this
            exact this
          · have h2 : k + 1 - (m + 1) < (fetchLoop up sl fuel (m + 1)
                (pagesAcc up sl (m + 1)).1 (pagesAcc up sl (m + 1)).2).2 := by
              omega
            exact ih (m + 1) k hlt h2
        · rw [if_neg hbm] at h
          dsimp only at h
          omega
    · rw [if_neg hlen] at h
      simp at h

/-- Claim C5: for every upstream behaviour, a single fetchPinsPaged call
issues at most 50 page requests, even if the upstream always returns a
non-empty bookmark; whenever a further request is issued after page k, the
accumulated unique record count was still below the clamped target and
page k was ok with a truthy bookmark, and a page whose body carries no
bookmark ends the loop immediately — so the loop stops as soon as either
condition hits. -/
theorem claim_C5 (up : Nat → PageResult) (limit : Int) :
    fetchRequests up limit ≤ 50
    ∧ (∀ k, k + 1 < fetchRequests up limit →
        (pagesAcc up (safeLimitOf limit) (k + 1)).1.length < safeLimitOf limit
        ∧ ∃ json, up k = PageResult.ok json ∧ (nextBookmark json).isSome = true)
    ∧ (∀ k json, k < fetchRequests up limit → up k = PageResult.ok json →
        nextBookmark json = none → fetchRequests up limit = k + 1) := by
  have hprog : ∀ k, k + 1 < fetchRequests up limit →
      (pagesAcc up (safeLimitOf limit) (k + 1)).1.length < safeLimitOf limit
      ∧ ∃ json, up k = PageResult.ok json ∧ (nextBookmark json).isSome = true := by
    intro k hk
    exact fetchLoop_progress up (safeLimitOf limit) 50 0 k (Nat.zero_le k) hk
  refine ⟨fetchLoop_count_le up (safeLimitOf limit) 50 0 [] [], hprog, ?_⟩
  intro k json hk hok hnb
  by_contra hne
  have hgt : k + 1 < fetchRequests up limit := by omega
  obtain ⟨-, json2, hok2, hbm2⟩ := hprog k hgt
  rw [hok] at hok2
  injection hok2 with hj
  rw [← hj, hnb] at hbm2
  simp at hbm2

/-- Witness for claim C5: a concrete upstream of one-pin pages with
bookmarks stops after exactly two requests at target 2, with the count
still short of the target after page one, and a bookmark-free first page
stops the loop after one request. -/
theorem claim_C5_witness :
    fetchRequests onePinPages 2 ≤ 50
    ∧ fetchRequests onePinPages 2 = 2
    ∧ (pagesAcc onePinPages (safeLimitOf 2) 1).1.length < safeLimitOf 2
    ∧ (∃ json, onePinPages 0 = PageResult.ok json ∧ (nextBookmark json).isSome = true)
    ∧ fetchRequests noBookmarkPage 7 = 1 := by
  refine ⟨(claim_C5 onePinPages 2).1, by decide, ?_, ?_, ?_⟩
  · exact ((claim_C5 onePinPages 2).2.1 0 (by decide)).1
  · exact ((claim_C5 onePinPages 2).2.1 0 (by decide)).2
  · exact (claim_C5 noBookmarkPage 7).2.2 0
      { items := some [], bookmark := none, next_bookmark := none } (by decide) rfl rfl

/-! Claim C1: the Image-Variant Selector as a first-max scan. -/

theorem argmax_ccons {α : Type} (f : α → Int) (c e : α) (us : List α) :
    List.argmax f (c :: e :: us)
      = if f c < f e then List.argmax f (e :: us) else List.argmax f (c :: us) := by
  rw [List.argmax_cons f c (e :: us), List.argmax_cons f e us, List.argmax_cons f c us]
  rcases List.argmax f us with _ | m
  · rfl
  · dsimp only
    by_cases h1 : f e < f m
    · rw [if_pos h1]
      dsimp only
      by_cases h2 : f c < f e
      · rw [if_pos h2]
        have h3 : f c < f m := lt_trans h2 h1
        rw [if_pos h3]
      · rw [if_neg h2]
    · rw [if_neg h1]
      dsimp only
      by_cases h2 : f c < f e
      · rw [if_pos h2, if_pos h2]
      · rw [if_neg h2, if_neg h2]
        have h3 : ¬ f c < f m := not_lt.2 (le_trans (not_lt.1 h1) (not_lt.1 h2))
        rw [if_neg h3]

theorem entryScore_nonneg (key : String) (v : Variant) (h : dimsNonneg (some v) = true) :
    0 ≤ variantScore key v := by
  unfold variantScore
  by_cases hwh : (numTruthy v.width && numTruthy v.height) = true
  · rw [if_pos hwh]
    simp only [dimsNonneg, Bool.and_eq_true] at h
    obtain ⟨h1, h2⟩ := h
    have hw0 : 0 ≤ v.width.getD 0 := by
      cases hw : v.width with
      | none => simp
      | some w =>
        rw [hw] at h1
        simp at h1
        simpa using h1
    have hh0 : 0 ≤ v.height.getD 0 := by
      cases hh : v.height with
      | none => simp
      | some w =>
        rw [hh] at h2
        simp at h2
        simpa using h2
    exact mul_nonneg hw0 hh0
  · rw [if_neg hwh]
    cases firstDigitRun key with
    | none => decide
    | some n => exact Int.natCast_nonneg n

theorem pickBestAux_argmax :
    ∀ (l : VariantMap) (c : String × Variant), strTruthy c.2.url = true →
      pickBestAux l c.2.url (entryScore c)
        = (List.argmax entryScore (c :: usableEntries l)).map entryUrl := by
  intro l
  induction l with
  | nil =>
    intro c hc
    rw [pickBestAux]
    have hu : usableEntries [] = [] := rfl
    rw [hu]
    simp only [List.argmax_singleton, Option.map_some]
    show c.2.url = some (c.2.url.getD "")
    exact strTruthy_eq_some hc
  | cons hd rest ih =>
    intro c hc
    obtain ⟨key, val⟩ := hd
    cases val with
    | none =>
      have hu : usableEntries ((key, none) :: rest) = usableEntries rest := by
        simp [usableEntries, List.filterMap_cons]
      rw [pickBestAux]
      rw [hu]
      exact ih c hc
    | some v =>
      by_cases hurl : strTruthy v.url = true
      · have hu : usableEntries ((key, some v) :: rest) = (key, v) :: usableEntries rest := by
          simp [usableEntries, List.filterMap_cons, hurl]
        have hscore : entryScore (key, v) = variantScore key v := rfl
        rw [pickBestAux]
        rw [if_pos hurl, hu, argmax_ccons]
        by_cases hgt : entryScore c < entryScore (key, v)
        · rw [if_pos hgt]
          have hgt2 : variantScore key v > entryScore c := by
            rw [← hscore]
            exact hgt
          rw [if_pos hgt2]
          exact ih (key, v) hurl
        · rw [if_neg hgt]
          have hgt2 : ¬ variantScore key v > entryScore c := by
            rw [← hscore]
            exact hgt
          rw [if_neg hgt2]
          exact ih c hc
      · have hu : usableEntries ((key, some v) :: rest) = usableEntries rest := by
          simp [usableEntries, List.filterMap_cons, hurl]
        rw [pickBestAux]
        rw [if_neg hurl, hu]
        exact ih c hc

theorem pickBestAux_start :
    ∀ (l : VariantMap), (∀ e ∈ l, dimsNonneg e.2 = true) →
      pickBestAux l none (-1) = ((usableEntries l).argmax entryScore).map entryUrl := by
  intro l
  induction l with
  | nil =>
    intro _
    rfl
  | cons hd rest ih =>
    intro h
    obtain ⟨key, val⟩ := hd
    cases val with
    | none =>
      have hu : usableEntries ((key, none) :: rest) = usableEntries rest := by
        simp [usableEntries, List.filterMap_cons]
      rw [pickBestAux]
      rw [hu]
      exact ih (fun e he => h e (List.mem_cons_of_mem _ he))
    | some v =>
      by_cases hurl : strTruthy v.url = true
      · have hu : usableEntries ((key, some v) :: rest) = (key, v) :: usableEntries rest := by
          simp [usableEntries, List.filterMap_cons, hurl]
        have hnn : 0 ≤ variantScore key v :=
          entryScore_nonneg key v (h (key, some v) (List.mem_cons_self _ _))
        have hgt : variantScore key v > (-1 : Int) := by omega
        rw [pickBestAux]
        rw [if_pos hurl, if_pos hgt, hu]
        have hh : pickBestAux rest v.url (variantScore key v)
            = Option.map entryUrl (List.argmax entryScore ((key, v) :: usableEntries rest)) :=
          pickBestAux_argmax rest (key, v) hurl
        exact hh
      · have hu : usableEntries ((key, some v) :: rest) = usableEntries rest := by
          simp [usableEntries, List.filterMap_cons, hurl]
        rw [pickBestAux]
        rw [if_neg hurl, hu]
        exact ih (fun e he => h e (List.mem_cons_of_mem _ he))

/-- Amended claim C1 (the original fails on zero or negative dimensions,
see the counterexample): for every variants map whose numeric width and
height values are nonnegative wherever present, pickBestImageVariant
returns the url of the variant with the highest score, where score =
width × height when both width and height are truthy (present and
nonzero) numbers, otherwise the first run of digits parsed from the
variant's key name, otherwise the fixed sentinel 999999; variants without
a truthy url field are skipped entirely, the first-seen variant wins exact
ties in left-to-right entry order (List.argmax keeps the first maximum),
and null is returned exactly when no variant has a usable url. -/
theorem claim_C1_amended (l : VariantMap) (h : ∀ e ∈ l, dimsNonneg e.2 = true) :
    pickBestImageVariant (some l) = ((usableEntries l).argmax entryScore).map entryUrl
    ∧ (pickBestImageVariant (some l) = none ↔ usableEntries l = []) := by
  have hm : pickBestImageVariant (some l)
      = ((usableEntries l).argmax entryScore).map entryUrl := by
    rw [pickBestImageVariant]
    exact pickBestAux_start l h
  refine ⟨hm, ?_⟩
  rw [hm]
  constructor
  · intro h0
    rcases hae : (usableEntries l).argmax entryScore with _ | a
    · exact List.argmax_eq_none.1 hae
    · rw [hae] at h0
      simp at h0
  · intro h0
    rw [h0]
    rfl

/-- Counterexample to claim C1 as stated: on exC1 the code returns the
url "u1" of the zero-width variant (scored 5 from its key digits, since a
width of 0 is not truthy), while the claim's policy — area whenever both
width and height are numeric — scores it 0 × 5 = 0 and must return "u2"
(area 4). -/
theorem claim_C1_counterexample :
    pickBestImageVariant (some exC1) = some "u1"
    ∧ claimPickC1 exC1 = some "u2"
    ∧ some "u1" ≠ some "u2" := by
  refine ⟨by decide, by decide, by decide⟩

/-- Witness for claim C1's amended theorem at the concrete map exC1. -/
theorem claim_C1_witness :
    pickBestImageVariant (some exC1) = ((usableEntries exC1).argmax entryScore).map entryUrl :=
  (claim_C1_amended exC1 (by decide)).1

/-! Claim C8: the per-board fetch limit and the output's order. -/

theorem pushUnseen_append (cap : Nat) :
    ∀ (l out : List PinRecord) (seen : List IdVal),
      ∃ w, (pushUnseen cap (out, seen) l).1 = out ++ w ∧ w.Sublist l := by
  intro l
  induction l with
  | nil =>
    intro out seen
    exact ⟨[], by rw [pushUnseen]; simp, List.nil_sublist _⟩
  | cons p rest ih =>
    intro out seen
    by_cases hcap : cap ≤ out.length
    · refine ⟨[], ?_, List.nil_sublist _⟩
      rw [pushUnseen, if_pos hcap]
      simp
    · by_cases hseen : p.id ∈ seen
      · obtain ⟨w, hw1, hw2⟩ := ih out seen
        refine ⟨w, ?_, hw2.cons p⟩
        rw [pushUnseen, if_neg hcap, if_pos hseen]
        exact hw1
      · obtain ⟨w, hw1, hw2⟩ := ih (out ++ [p]) (p.id :: seen)
        refine ⟨p :: w, ?_, hw2.cons₂ p⟩
        rw [pushUnseen, if_neg hcap, if_neg hseen]
        rw [hw1, List.append_assoc]
        rfl

theorem fetchLoop_sublist (up : Nat → PageResult) (sl : Nat) :
    ∀ (fuel idx : Nat) (out : List PinRecord) (seen : List IdVal) (res : List PinRecord),
      (fetchLoop up sl fuel idx out seen).1 = Except.ok res →
      ∃ w, res = out ++ w ∧ w.Sublist (pagesSlice up idx fuel) := by
  intro fuel
  induction fuel with
  | zero =>
    intro idx out seen res hres
    rw [fetchLoop] at hres
    injection hres with h
    refine ⟨[], by rw [← h]; simp, ?_⟩
    rw [pagesSlice]
  | succ fuel ih =>
    intro idx out seen res hres
    rw [fetchLoop] at hres
    by_cases hlen : out.length < sl
    · rw [if_pos hlen] at hres
      cases hup : up idx with
      | fetchThrow msg =>
        rw [hup] at hres
        exact absurd hres (by simp)
      | httpErr s b =>
        rw [hup] at hres
        exact absurd hres (by simp)
      | ok json =>
        rw [hup] at hres
        dsimp only at hres
        have hpage : pageRecords up idx = normalizePinsFromPinterest json := by
          rw [pageRecords, hup]
        obtain ⟨w0, hw01, hw02⟩ := pushUnseen_append sl (normalizePinsFromPinterest json) out seen
        by_cases hbm : (nextBookmark json).isSome
        · rw [if_pos hbm] at hres
          obtain ⟨w1, hw11, hw12⟩ := ih (idx + 1) _ _ res hres
          refine ⟨w0 ++ w1, ?_, ?_⟩
          · rw [hw11, hw01, List.append_assoc]
          · rw [pagesSlice, hpage]
            exact List.Sublist.append hw02 hw12
        · rw [if_neg hbm] at hres
          injection hres with h
          refine ⟨w0, ?_, ?_⟩
          · rw [← h, hw01]
          · rw [pagesSlice, hpage]
            exact hw02.trans (List.sublist_append_left _ _)
    · rw [if_neg hlen] at hres
      injection hres with h
      exact ⟨[], by rw [← h]; simp, List.nil_sublist _⟩

theorem fetchPinsPaged_sublist (up : Nat → PageResult) (limit : Int) (o : List PinRecord)
    (h : fetchPinsPaged up limit = Except.ok o) : o.Sublist (allPageRecords up) := by
  rw [fetchPinsPaged] at h
  cases hloop : (fetchLoop up (safeLimitOf limit) 50 0 [] []).1 with
  | error e =>
    rw [hloop] at h
    exact absurd h (by simp [Except.map])
  | ok res =>
    rw [hloop] at h
    simp [Except.map] at h
    obtain ⟨w, hw1, hw2⟩ := fetchLoop_sublist up (safeLimitOf limit) 50 0 [] [] res hloop
    have hres : res.Sublist (allPageRecords up) := by
      rw [allPageRecords, hw1]
      simpa using hw2
    rw [← h]
    exact (List.take_sublist _ _).trans hres

theorem boardFanout_sublist (pinsUp : Nat → Nat → PageResult) (limit : Nat) :
    ∀ (boards : List Board) (bIdx : Nat) (st : List PinRecord × List IdVal),
      ∃ w, (boardFanout pinsUp limit bIdx boards st).1 = st.1 ++ w
        ∧ w.Sublist (boardsSlice pinsUp bIdx boards.length) := by
  intro boards
  induction boards with
  | nil =>
    intro bIdx st
    exact ⟨[], by rw [boardFanout]; simp, List.nil_sublist _⟩
  | cons b rest ih =>
    intro bIdx st
    obtain ⟨out, seen⟩ := st
    by_cases hlen : out.length < limit
    · cases hfetch : fetchPinsPaged (pinsUp bIdx) (min 200 ((limit : Int) - (out.length : Int))) with
      | error e =>
        obtain ⟨w, hw1, hw2⟩ := ih (bIdx + 1) (out, seen)
        refine ⟨w, ?_, ?_⟩
        · rw [boardFanout, if_pos hlen, hfetch]
          exact hw1
        · rw [List.length_cons, boardsSlice]
          exact hw2.trans (List.sublist_append_right _ _)
      | ok pins =>
        obtain ⟨w0, hw01, hw02⟩ := pushUnseen_append limit pins out seen
        obtain ⟨w1, hw11, hw12⟩ := ih (bIdx + 1) (pushUnseen limit (out, seen) pins)
        refine ⟨w0 ++ w1, ?_, ?_⟩
        · rw [boardFanout, if_pos hlen, hfetch, hw11, hw01, List.append_assoc]
        · rw [List.length_cons, boardsSlice]
          refine List.Sublist.append ?_ hw12
          exact hw02.trans (fetchPinsPaged_sublist (pinsUp bIdx) _ pins hfetch)
    · exact ⟨[], by rw [boardFanout, if_neg hlen]; simp, List.nil_sublist _⟩

/-- Amended claim C8 (the original's "asked for the full remainder" fails,
see the counterexample: each board's fetch is asked for only
min(200, targetLimit − alreadyCollected) pins): in the /api/me/pins
fan-out the overall response contains at most targetLimit records, and
those records are an order-preserving selection from the boards' page
records in board-enumeration order, then page order within a board. -/
theorem claim_C8_amended (boardsUp : Nat → BoardsPage) (pinsUp : Nat → Nat → PageResult)
    (limitQ : Option Int) (items : List PinRecord)
    (h : mePinsHandler boardsUp pinsUp limitQ = ApiResp.ok items) :
    items.length ≤ mePinsLimit limitQ
    ∧ ∃ n, items.Sublist (allBoardsRecords pinsUp n) := by
  rcases mePinsHandler_items boardsUp pinsUp limitQ items h with h0 | ⟨boards, h0⟩
  · subst h0
    exact ⟨Nat.zero_le _, 0, List.nil_sublist _⟩
  · subst h0
    refine ⟨List.length_take_le _ _, boards.length, ?_⟩
    obtain ⟨w, hw1, hw2⟩ := boardFanout_sublist pinsUp (mePinsLimit limitQ) boards 0 ([], [])
    have hsub : (boardFanout pinsUp (mePinsLimit limitQ) 0 boards ([], [])).1.Sublist
        (allBoardsRecords pinsUp boards.length) := by
      rw [allBoardsRecords, hw1]
      simpa using hw2
    exact (List.take_sublist _ _).trans hsub

set_option maxRecDepth 100000 in
set_option maxHeartbeats 2000000 in
/-- Counterexample to claim C8 as stated: with limit 201 and one board
whose collection holds 201 distinct pins (paged in fifties), the response
holds only 200 records, because the board's fetch is asked for
min(200, 201) = 200 pins, not the full remainder 201 — asked for 201, the
same upstream would deliver 201, as the second conjunct shows. -/
theorem claim_C8_counterexample :
    (apiItems (mePinsHandler oneBoardUp boardsPins50 (some 201))).map List.length = some 200
    ∧ (fetchedItems (fetchPinsPaged (boardsPins50 0) 201)).map List.length = some 201 := by
  constructor
  · rfl
  · rfl

/-- Witness for claim C8's amended theorem at a concrete upstream. -/
theorem claim_C8_witness :
    ((apiItems (mePinsHandler oneBoardUp boardsPins50 (some 5))).getD []).length
        ≤ mePinsLimit (some 5)
    ∧ ∃ n, ((apiItems (mePinsHandler oneBoardUp boardsPins50 (some 5))).getD []).Sublist
        (allBoardsRecords boardsPins50 n) :=
  claim_C8_amended oneBoardUp boardsPins50 (some 5) _ rfl

end Pinterval
